import Mathlib

/-!
Verification of the network-simulation orchestration layer of
`Network_Simulation.py` (Allen-cell NEURON network script).

The script wires biophysical cells, current clamps, excitatory synapses with
transmission delays, and recorders, and drives runs of a discrete-event
simulation engine.  The wiring data (stimulation sites, recording sites,
synapse sites, delays, weights, the `simulate` entry point) is embedded
directly from the script; the engine itself (current summation, synchronous
tick update, edge-triggered threshold detection, delayed event delivery,
reset-on-run) lives outside the script and is modelled from the spec of the
orchestration core.
-/

/-- A location on a cell's morphology, as used by the script: `soma(loc)`
or `dend[idx](loc)`. -/
inductive Site where
  | soma (loc : Rat)
  | dend (idx : Nat) (loc : Rat)
deriving DecidableEq

/-- A timed current injection: target cell id, onset delay, duration and
amplitude, exactly the fields the script sets on `h.IClamp`. -/
structure Stimulus where
  target : Nat
  delay : Nat
  dur : Nat
  amp : Int
deriving DecidableEq

/-- Modelled from the spec: the Stimulus contract.  `current_at t` returns
`amp` when `delay ≤ t < delay + dur` and `0` otherwise (the engine that
realises `h.IClamp` is external to the script). -/
def current_at (s : Stimulus) (t : Nat) : Int :=
  if s.delay ≤ t ∧ t < s.delay + s.dur then s.amp else 0

/-- Embedded from `attach_current_clamp` in the script: the clamp is placed
at `cell.soma(0.5)` and carries the given delay, duration and amplitude.
Returns the stimulation site together with the stimulus record. -/
def attach_current_clamp (cell : Nat) (delay dur : Nat) (amp : Int) :
    Site × Stimulus :=
  (Site.soma (1/2), { target := cell, delay := delay, dur := dur, amp := amp })

/-- Embedded from `set_recording_vectors` in the script: the voltage
recorder observes `cell.soma(0.5)`. -/
def set_recording_vectors (cell : Nat) : Nat × Site :=
  (cell, Site.soma (1/2))

/-- A directed synaptic connection: source cell, target cell, transmission
delay (in ticks) and weight, as set on the script's `h.NetCon`s. -/
structure Connection where
  src : Nat
  tgt : Nat
  delay : Nat
  weight : Int
deriving DecidableEq

/-- The wiring of one `h.ExpSyn`/`h.NetCon` pair in the script: which cell
and site the synapse sits on, which cell and site the `NetCon` watches,
and its weight and delay. -/
structure NetConWiring where
  srcCell : Nat
  srcSite : Site
  synCell : Nat
  synSite : Site
  weight : Int
  delay : Nat
deriving DecidableEq

/-- Embedded from the 2-cell experiment: `syn1 = h.ExpSyn(cells[1].dend[0](0.5))`,
`nc1 = h.NetCon(cells[0].soma(0.5)._ref_v, syn1)`, `weight = 1`, `delay = 10`. -/
def twoCell_nc1 : NetConWiring :=
  { srcCell := 0, srcSite := Site.soma (1/2)
    synCell := 1, synSite := Site.dend 0 (1/2)
    weight := 1, delay := 10 }

/-- Embedded from the 2-cell experiment: `syn2 = h.ExpSyn(cells[0].dend[0](0.5))`,
`nc2 = h.NetCon(cells[1].soma(0.5)._ref_v, syn2)`, `weight = 1`, `delay = 10`. -/
def twoCell_nc2 : NetConWiring :=
  { srcCell := 1, srcSite := Site.soma (1/2)
    synCell := 0, synSite := Site.dend 0 (1/2)
    weight := 1, delay := 10 }

/-- Embedded from the 3-cell experiment, `nc1`: cell 0's soma drives a
synapse on cell 1's first dendrite. -/
def threeCell_nc1 : NetConWiring :=
  { srcCell := 0, srcSite := Site.soma (1/2)
    synCell := 1, synSite := Site.dend 0 (1/2)
    weight := 1, delay := 10 }

/-- Embedded from the 3-cell experiment, `nc2`: cell 1's soma drives a
synapse on cell 2's first dendrite. -/
def threeCell_nc2 : NetConWiring :=
  { srcCell := 1, srcSite := Site.soma (1/2)
    synCell := 2, synSite := Site.dend 0 (1/2)
    weight := 1, delay := 10 }

/-- Embedded from the 3-cell experiment, `nc3`: cell 2's soma drives a
synapse on cell 0's first dendrite, closing the ring. -/
def threeCell_nc3 : NetConWiring :=
  { srcCell := 2, srcSite := Site.soma (1/2)
    synCell := 0, synSite := Site.dend 0 (1/2)
    weight := 1, delay := 10 }

/-- All `NetCon`/`ExpSyn` wirings built anywhere in the script. -/
def scriptWirings : List NetConWiring :=
  [twoCell_nc1, twoCell_nc2, threeCell_nc1, threeCell_nc2, threeCell_nc3]

/-- Modelled from the spec: a cell of the orchestration core.  Its internal
dynamics (the external engine's cable-equation integration) is the opaque
`Integrable` capability `step : old voltage state → input current → new
voltage`; `rest` is the resting value the state is initialised to, `v` the
current voltage state. -/
structure Cell where
  id : Nat
  step : Int → Int → Int
  rest : Int
  v : Int

/-- Modelled from the spec: the Network owns the set of cells and the set of
connections. -/
structure Network where
  cells : List Cell
  conns : List Connection

/-- Modelled from the spec's error kinds: `UnknownCellError`,
`InvalidParameterError`, `EngineStateError`. -/
inductive SimError where
  | UnknownCellError
  | InvalidParameterError
  | EngineStateError
deriving DecidableEq

/-- The ids present in a network's cell set. -/
def Network.cellIds (net : Network) : List Nat :=
  net.cells.map Cell.id

/-- Modelled from the spec: `add_connection src tgt delay weight` fails with
`UnknownCellError` when either endpoint id is absent from the cell set, and
on failure returns the network unchanged; on success it appends the new
connection. -/
def add_connection (net : Network) (src tgt : Nat) (delay : Nat)
    (weight : Int) : Except SimError Unit × Network :=
  if src ∈ net.cellIds ∧ tgt ∈ net.cellIds then
    (Except.ok (),
      { net with conns := net.conns ++ [⟨src, tgt, delay, weight⟩] })
  else
    (Except.error SimError.UnknownCellError, net)

/-- Modelled from the spec: a scheduled synaptic delivery: target cell id,
delivery tick, and delivered current amplitude. -/
structure Event where
  tgt : Nat
  time : Nat
  amp : Int
deriving DecidableEq

/-- Modelled from the spec: the unit post-synaptic pulse amplitude; a
delivery is this amplitude scaled by the connection's weight, over a
short fixed (one-tick) post-synaptic window. -/
def synUnitAmp : Int := 10

/-- Modelled from the spec: the engine state: the network, the attached
stimuli, the fixed spike threshold, the pending-delivery event queue, the
current tick, the target stop tick, the recorded voltage history (one row
of per-cell voltages per completed tick) and the recorded spike events
(tick, cell id). -/
structure Engine where
  net : Network
  stimuli : List Stimulus
  theta : Int
  queue : List Event
  time : Nat
  tstop : Nat
  hist : List (List Int)
  spikes : List (Nat × Nat)

/-- Modelled from the spec: total stimulus current into cell `cid` at tick
`t`: the sum of `current_at t` over all stimuli attached to that cell. -/
def stimCurrent (stims : List Stimulus) (cid : Nat) (t : Nat) : Int :=
  ((stims.filter (fun s => s.target = cid)).map (fun s => current_at s t)).sum

/-- Modelled from the spec: total synaptic current delivered to cell `cid`
at tick `t`: the sum of the amplitudes of the queued events targeting that
cell whose delivery time is exactly `t`. -/
def deliveredCurrent (q : List Event) (cid : Nat) (t : Nat) : Int :=
  ((q.filter (fun ev => ev.tgt = cid ∧ ev.time = t)).map Event.amp).sum

/-- Modelled from the spec: a cell's total input current at the current
tick: active stimuli contributions plus pending synaptic deliveries. -/
def inputCurrent (e : Engine) (cid : Nat) : Int :=
  stimCurrent e.stimuli cid e.time + deliveredCurrent e.queue cid e.time

/-- Modelled from the spec: edge-triggered threshold detection: true
exactly when the previous voltage is below the fixed threshold and the new
voltage has reached it (a rising crossing from below). -/
def crossedB (theta prev cur : Int) : Bool :=
  decide (prev < theta) && decide (theta ≤ cur)

/-- The new voltage of a cell after one synchronous tick, computed from the
snapshot `e`. -/
def nextV (e : Engine) (c : Cell) : Int :=
  c.step c.v (inputCurrent e c.id)

/-- Whether cell `c` crosses the spike threshold during the current tick of
engine `e` (its `crossed_threshold()` edge). -/
def crossing (e : Engine) (c : Cell) : Bool :=
  crossedB e.theta c.v (nextV e c)

/-- Modelled from the spec: the deliveries scheduled during the current
tick: for each cell that crosses threshold at tick `t` and each of its
outgoing connections, exactly one event on the connection's target with
delivery time `t + delay` and amplitude `weight * synUnitAmp`. -/
def scheduledEvents (e : Engine) : List Event :=
  (e.net.cells.filter (fun c => crossing e c)).flatMap
    (fun c =>
      (e.net.conns.filter (fun k => k.src = c.id)).map
        (fun k =>
          { tgt := k.tgt, time := e.time + k.delay,
            amp := k.weight * synUnitAmp }))

/-- The spike events emitted during the current tick. -/
def spikesNow (e : Engine) : List (Nat × Nat) :=
  (e.net.cells.filter (fun c => crossing e c)).map (fun c => (e.time, c.id))

/-- A cell with its voltage state advanced by one tick. -/
def stepCell (e : Engine) (c : Cell) : Cell :=
  { c with v := nextV e c }

/-- Modelled from the spec: one engine tick: (a) compute every cell's input
current from the previous tick's snapshot, (b) step every cell
synchronously, (c) schedule one delayed delivery per outgoing connection of
each cell that crossed threshold, (d) retire the events delivered this
tick, (e) append the new voltages and spike events to the recorders, then
advance time by one tick. -/
def stepEngine (e : Engine) : Engine :=
  { net := { cells := e.net.cells.map (stepCell e), conns := e.net.conns }
    stimuli := e.stimuli
    theta := e.theta
    queue := e.queue.filter (fun ev => e.time < ev.time) ++ scheduledEvents e
    time := e.time + 1
    tstop := e.tstop
    hist := e.hist ++ [e.net.cells.map (fun c => nextV e c)]
    spikes := e.spikes ++ spikesNow e }

/-- A cell with its voltage state re-initialised to its resting value. -/
def resetCell (c : Cell) : Cell :=
  { c with v := c.rest }

/-- Modelled from the spec: the per-run reset performed when a run starts:
clears the event queue, rewinds time to 0, empties the recorders and
re-initialises every cell's transient state, leaving the topology (cells,
connections) and the attached stimuli intact. -/
def reset (e : Engine) : Engine :=
  { net := { cells := e.net.cells.map resetCell, conns := e.net.conns }
    stimuli := e.stimuli
    theta := e.theta
    queue := [], time := 0, tstop := e.tstop, hist := [], spikes := [] }

/-- Modelled from the spec: the run loop: starting from a reset state, tick
until simulated time reaches the target stop time `tstop`. -/
def runLoop (e : Engine) : Engine :=
  Nat.iterate stepEngine e.tstop e

/-- Modelled from the spec: `h.run()` of the external engine: re-initialise
the per-run transient state, then run the loop to `tstop`. -/
def hrun (e : Engine) : Engine :=
  runLoop (reset e)

/-- Embedded from the script's `simulate(tstop=25)`: set the global stop
time to the given value, then run. -/
def simulate (e : Engine) (tstop : Nat) : Engine :=
  hrun { e with tstop := tstop }

/-- The script's default stop time: `simulate` called with no argument runs
to `tstop = 25`. -/
def simulateDefaultTstop : Nat := 25

/-- Embedded from the script's `simulate()` call with the default
argument. -/
def simulateNoArg (e : Engine) : Engine :=
  simulate e simulateDefaultTstop

/-- The recorded voltage trace of the cell at position `i`: the `i`-th
column of the voltage history. -/
def column (hist : List (List Int)) (i : Nat) : List (Option Int) :=
  hist.map (fun row => row[i]?)

/-- Modelled from the spec: a passive, memoryless `Integrable` variant: the
observed voltage equals the input current (resting value 0). -/
def passiveStep : Int → Int → Int := fun _ i => i

/-- A fresh passive cell with the given id, at rest. -/
def mkCell (cid : Nat) : Cell :=
  { id := cid, step := passiveStep, rest := 0, v := 0 }

/-- The spec's 2-cell ring scenario with a parametric synaptic weight `w`:
cell 0 → cell 1 and cell 1 → cell 0, delay 10, spike threshold 5, cell 0
stimulated over [5, 6) with amplitude 6 (above threshold; units of 0.1 nA,
so 6 is the script's 0.6 and the threshold 5 its 0.5). -/
def ring2w (w : Int) : Engine :=
  { net :=
      { cells := [mkCell 0, mkCell 1]
        conns := [⟨0, 1, 10, w⟩, ⟨1, 0, 10, w⟩] }
    stimuli := [(attach_current_clamp 0 5 1 6).2]
    theta := 5
    queue := [], time := 0, tstop := 0, hist := [], spikes := [] }

/-- The spec's 2-cell ring scenario at weight 1. -/
def ring2 : Engine := ring2w 1

/-- The script's disconnected 2-cell experiment: two cells, no connections,
cell 0 stimulated over [5, 6) with amplitude 6. -/
def disc2 : Engine :=
  { net := { cells := [mkCell 0, mkCell 1], conns := [] }
    stimuli := [(attach_current_clamp 0 5 1 6).2]
    theta := 5
    queue := [], time := 0, tstop := 0, hist := [], spikes := [] }

/-- The engine state of the 2-cell ring run at the tick of cell 0's spike. -/
def ringAtSpike : Engine :=
  Nat.iterate stepEngine 5 (reset { ring2 with tstop := 25 })

/-- A single rectangular supra-threshold voltage pulse over ticks 5..8. -/
def pulseV (t : Nat) : Int := if 5 ≤ t ∧ t ≤ 8 then 6 else 0

/-- A 1-cell network used to exercise `add_connection` failures. -/
def witNet : Network := { cells := [mkCell 0], conns := [] }

/-! Basic frame lemmas about one engine tick and the per-run reset. -/

lemma stepEngine_conns (e : Engine) : (stepEngine e).net.conns = e.net.conns := rfl

lemma stepEngine_stimuli (e : Engine) : (stepEngine e).stimuli = e.stimuli := rfl

lemma stepEngine_tstop (e : Engine) : (stepEngine e).tstop = e.tstop := rfl

lemma stepEngine_theta (e : Engine) : (stepEngine e).theta = e.theta := rfl

lemma stepEngine_time (e : Engine) : (stepEngine e).time = e.time + 1 := rfl

lemma resetCell_stepCell (e : Engine) (c : Cell) :
    resetCell (stepCell e c) = resetCell c := rfl

lemma resetCell_resetCell (c : Cell) : resetCell (resetCell c) = resetCell c := rfl

lemma stepEngine_cells (e : Engine) :
    (stepEngine e).net.cells = e.net.cells.map (stepCell e) := rfl

lemma stepEngine_reset_cells (e : Engine) :
    (stepEngine e).net.cells.map resetCell = e.net.cells.map resetCell := by
  rw [stepEngine_cells, List.map_map]
  rfl

lemma reset_stepEngine (e : Engine) : reset (stepEngine e) = reset e := by
  unfold reset stepEngine
  rw [List.map_map]
  rfl

lemma reset_reset (e : Engine) : reset (reset e) = reset e := by
  unfold reset
  rw [List.map_map]
  rfl

lemma iterate_succ_apply (f : Engine → Engine) (n : Nat) (e : Engine) :
    Nat.iterate f (n + 1) e = Nat.iterate f n (f e) := rfl

lemma iterate_conns (n : Nat) (e : Engine) :
    (Nat.iterate stepEngine n e).net.conns = e.net.conns := by
  induction n generalizing e with
  | zero => rfl
  | succ n ih => rw [iterate_succ_apply, ih, stepEngine_conns]

lemma iterate_stimuli (n : Nat) (e : Engine) :
    (Nat.iterate stepEngine n e).stimuli = e.stimuli := by
  induction n generalizing e with
  | zero => rfl
  | succ n ih => rw [iterate_succ_apply, ih, stepEngine_stimuli]

lemma iterate_tstop (n : Nat) (e : Engine) :
    (Nat.iterate stepEngine n e).tstop = e.tstop := by
  induction n generalizing e with
  | zero => rfl
  | succ n ih => rw [iterate_succ_apply, ih, stepEngine_tstop]

lemma iterate_time (n : Nat) (e : Engine) :
    (Nat.iterate stepEngine n e).time = e.time + n := by
  induction n generalizing e with
  | zero => rfl
  | succ n ih => rw [iterate_succ_apply, ih, stepEngine_time]; omega

lemma iterate_reset_cells (n : Nat) (e : Engine) :
    (Nat.iterate stepEngine n e).net.cells.map resetCell
      = e.net.cells.map resetCell := by
  induction n generalizing e with
  | zero => rfl
  | succ n ih => rw [iterate_succ_apply, ih, stepEngine_reset_cells]

lemma reset_iterate (n : Nat) (e : Engine) :
    reset (Nat.iterate stepEngine n e) = reset e := by
  induction n generalizing e with
  | zero => rfl
  | succ n ih => rw [iterate_succ_apply, ih, reset_stepEngine]

lemma simulate_def (e : Engine) (t : Nat) :
    simulate e t = Nat.iterate stepEngine t (reset { e with tstop := t }) := rfl

lemma simulate_tstop (e : Engine) (t : Nat) : (simulate e t).tstop = t := by
  rw [simulate_def, iterate_tstop]; rfl

lemma simulate_time (e : Engine) (t : Nat) : (simulate e t).time = t := by
  rw [simulate_def, iterate_time]
  show 0 + t = t
  omega

lemma simulate_conns (e : Engine) (t : Nat) :
    (simulate e t).net.conns = e.net.conns := by
  rw [simulate_def, iterate_conns]; rfl

lemma simulate_stimuli (e : Engine) (t : Nat) :
    (simulate e t).stimuli = e.stimuli := by
  rw [simulate_def, iterate_stimuli]; rfl

lemma simulate_reset_cells (e : Engine) (t : Nat) :
    (simulate e t).net.cells.map resetCell = e.net.cells.map resetCell := by
  rw [simulate_def, iterate_reset_cells]
  show (e.net.cells.map resetCell).map resetCell = _
  rw [List.map_map]
  rfl

lemma engine_set_tstop_self (e : Engine) (t : Nat) (h : e.tstop = t) :
    { e with tstop := t } = e := by
  cases e
  simp only at h
  rw [h]

/-! Helper lemmas about event scheduling and threshold crossings. -/

lemma crossedB_eq_true {theta prev cur : Int} :
    crossedB theta prev cur = true ↔ prev < theta ∧ theta ≤ cur := by
  unfold crossedB
  rw [Bool.and_eq_true, decide_eq_true_iff, decide_eq_true_iff]

lemma mem_scheduledEvents {e : Engine} {ev : Event}
    (h : ev ∈ scheduledEvents e) :
    ∃ k, k ∈ e.net.conns ∧ ev.tgt = k.tgt ∧ ev.time = e.time + k.delay ∧
      ev.amp = k.weight * synUnitAmp := by
  unfold scheduledEvents at h
  rw [List.mem_flatMap] at h
  obtain ⟨c, hc, hev⟩ := h
  rw [List.mem_map] at hev
  obtain ⟨k, hk, rfl⟩ := hev
  rw [List.mem_filter] at hk
  exact ⟨k, hk.1, rfl, rfl, rfl⟩

lemma length_scheduledEvents (e : Engine) :
    (scheduledEvents e).length
      = ((e.net.cells.filter (fun c => crossing e c)).map
          (fun c => (e.net.conns.filter (fun k => k.src = c.id)).length)).sum := by
  unfold scheduledEvents
  rw [List.length_flatMap]
  simp only [Function.comp_def, List.length_map]

/-- C1: every delivery scheduled by a presynaptic spike at the current tick
comes from a connection of the network, targets that connection's target,
is delivered exactly `delay` after emission with amplitude
`weight * synUnitAmp`; the number of scheduled deliveries is exactly one
per outgoing connection of each cell that spiked; and in the 2-cell ring
(delay 10, weight 1, cell 0 driven above threshold over [5, 6)) cell 0
spikes exactly once, at tick 5, and cell 1's first and only threshold
crossing is at tick 15 = 5 + 10, never earlier. -/
theorem netcon_single_delayed_delivery :
    (∀ (e : Engine) (ev : Event), ev ∈ scheduledEvents e →
      ∃ k, k ∈ e.net.conns ∧ ev.tgt = k.tgt ∧ ev.time = e.time + k.delay ∧
        ev.amp = k.weight * synUnitAmp) ∧
    (∀ e : Engine, (scheduledEvents e).length
      = ((e.net.cells.filter (fun c => crossing e c)).map
          (fun c => (e.net.conns.filter (fun k => k.src = c.id)).length)).sum) ∧
    (simulate ring2 25).spikes = [(5, 0), (15, 1)] :=
  ⟨fun _ _ h => mem_scheduledEvents h, length_scheduledEvents, by decide⟩

/-- Witness for C1 at a concrete input: at the spike tick of the 2-cell
ring run, the single scheduled delivery is on cell 1 at tick 15. -/
theorem netcon_single_delayed_delivery_witness :
    (⟨1, 15, 10⟩ : Event) ∈ scheduledEvents ringAtSpike ∧
    ∃ k, k ∈ ringAtSpike.net.conns ∧ (⟨1, 15, 10⟩ : Event).tgt = k.tgt ∧
      (⟨1, 15, 10⟩ : Event).time = ringAtSpike.time + k.delay ∧
      (⟨1, 15, 10⟩ : Event).amp = k.weight * synUnitAmp :=
  ⟨by decide, netcon_single_delayed_delivery.1 ringAtSpike ⟨1, 15, 10⟩ (by decide)⟩

/-- C2: a stimulus injects `amp` at every tick of `[delay, delay + dur)`
and nothing outside it, for any amplitude `amp ≥ 0`; stimuli attached to
one cell sum their contributions, and the engine's input current is the
stimulus sum plus the synaptic deliveries of the tick. -/
theorem stimulus_current_contract :
    (∀ (s : Stimulus) (t : Nat), 0 ≤ s.amp →
      (s.delay ≤ t ∧ t < s.delay + s.dur → current_at s t = s.amp) ∧
      (¬(s.delay ≤ t ∧ t < s.delay + s.dur) → current_at s t = 0)) ∧
    (∀ (s1 s2 : List Stimulus) (cid t : Nat),
      stimCurrent (s1 ++ s2) cid t
        = stimCurrent s1 cid t + stimCurrent s2 cid t) ∧
    (∀ (e : Engine) (cid : Nat),
      inputCurrent e cid
        = stimCurrent e.stimuli cid e.time
            + deliveredCurrent e.queue cid e.time) := by
  refine ⟨fun s t _ => ⟨fun h => ?_, fun h => ?_⟩,
    fun s1 s2 cid t => ?_, fun e cid => rfl⟩
  · unfold current_at
    rw [if_pos h]
  · unfold current_at
    rw [if_neg h]
  · unfold stimCurrent
    rw [List.filter_append, List.map_append, List.sum_append]

/-- Witness for C2 at a concrete input: the script's clamp (delay 5,
duration 1, amplitude 6) injects 6 at tick 5. -/
theorem stimulus_current_contract_witness :
    current_at (attach_current_clamp 0 5 1 6).2 5 = (attach_current_clamp 0 5 1 6).2.amp :=
  (stimulus_current_contract.1 (attach_current_clamp 0 5 1 6).2 5 (by decide)).1
    (by decide)

/-- C3: running the same configuration twice, with the engine reset that
every run performs in between, produces identical voltage histories and
identical spike recordings (same inputs, same trace). -/
theorem rerun_deterministic_traces (e : Engine) (t : Nat) :
    (simulate (simulate e t) t).hist = (simulate e t).hist ∧
    (simulate (simulate e t) t).spikes = (simulate e t).spikes := by
  have key : simulate (simulate e t) t = simulate e t := by
    show runLoop (reset { simulate e t with tstop := t }) = simulate e t
    rw [engine_set_tstop_self _ t (simulate_tstop e t), simulate_def,
      reset_iterate, reset_reset]
    rfl
  exact ⟨by rw [key], by rw [key]⟩

/-- C4: threshold crossing is edge-triggered: the detector fires exactly
when the voltage rises from below the fixed threshold to at or above it,
and over any single sustained supra-threshold pulse it fires exactly once,
never twice. -/
theorem crossed_threshold_edge_triggered :
    (∀ (e : Engine) (c : Cell), crossing e c = crossedB e.theta c.v (nextV e c)) ∧
    (∀ (theta : Int) (v : Nat → Int) (k m : Nat),
      v k < theta → (∀ t, k < t → t ≤ m → theta ≤ v t) → k < m →
      ((Finset.Ico k m).filter
          (fun t => crossedB theta (v t) (v (t + 1)) = true)).card = 1) := by
  refine ⟨fun e c => rfl, fun theta v k m hk hup hkm => ?_⟩
  have hset : (Finset.Ico k m).filter
      (fun t => crossedB theta (v t) (v (t + 1)) = true) = {k} := by
    ext t
    simp only [Finset.mem_filter, Finset.mem_Ico, Finset.mem_singleton]
    constructor
    · rintro ⟨⟨h1, h2⟩, hc⟩
      by_contra hne
      have hkt : k < t := lt_of_le_of_ne h1 (Ne.symm hne)
      have hth : theta ≤ v t := hup t hkt (Nat.le_of_lt h2)
      rw [crossedB_eq_true] at hc
      exact absurd hc.1 (not_lt.mpr hth)
    · rintro rfl
      exact ⟨⟨le_refl _, hkm⟩,
        crossedB_eq_true.mpr ⟨hk, hup _ (Nat.lt_succ_self _) hkm⟩⟩
  rw [hset, Finset.card_singleton]

/-- Witness for C4 at a concrete input: the sustained pulse `pulseV`
produces exactly one crossing edge over the window. -/
theorem crossed_threshold_edge_triggered_witness :
    ((Finset.Ico 4 8).filter
        (fun t => crossedB 5 (pulseV t) (pulseV (t + 1)) = true)).card = 1 :=
  crossed_threshold_edge_triggered.2 5 pulseV 4 8 (by decide)
    (by
      intro t h1 h2
      unfold pulseV
      rw [if_pos ⟨by omega, h2⟩]
      decide)
    (by decide)

/-- C6: adding a connection whose source or target id is absent from the
network's cell set fails with `UnknownCellError` and leaves the network's
connection set unchanged. -/
theorem add_connection_unknown_cell_atomic (net : Network) (src tgt delay : Nat)
    (w : Int) (h : src ∉ net.cellIds ∨ tgt ∉ net.cellIds) :
    add_connection net src tgt delay w
        = (Except.error SimError.UnknownCellError, net) ∧
    ((add_connection net src tgt delay w).2).conns = net.conns := by
  have hn : ¬(src ∈ net.cellIds ∧ tgt ∈ net.cellIds) := by tauto
  constructor
  · unfold add_connection
    rw [if_neg hn]
  · unfold add_connection
    rw [if_neg hn]

/-- Witness for C6 at a concrete input: wiring cell 0 to the nonexistent
cell 5 fails and the connection set stays empty. -/
theorem add_connection_unknown_cell_atomic_witness :
    add_connection witNet 0 5 10 1
        = (Except.error SimError.UnknownCellError, witNet) ∧
    ((add_connection witNet 0 5 10 1).2).conns = witNet.conns :=
  add_connection_unknown_cell_atomic witNet 0 5 10 1 (Or.inr (by decide))

/-- C8: a new run first clears the event queue and all per-run transient
state (history, spike record, clock) while the cell set (ids and
dynamics) and the connection set (with their delays and weights) are the
same before and after, and the run loop stops exactly when simulated time
reaches the target stop time. -/
theorem rerun_resets_transients_preserves_topology (e : Engine) (t : Nat) :
    (simulate e t).net.conns = e.net.conns ∧
    (simulate e t).net.cells.map Cell.id = e.net.cells.map Cell.id ∧
    (simulate e t).net.cells.map resetCell = e.net.cells.map resetCell ∧
    (reset e).queue = [] ∧ (reset e).hist = [] ∧ (reset e).spikes = [] ∧
    (reset e).time = 0 ∧ (reset e).net.conns = e.net.conns ∧
    (simulate e t).time = t := by
  refine ⟨simulate_conns e t, ?_, simulate_reset_cells e t, rfl, rfl, rfl,
    rfl, rfl, simulate_time e t⟩
  have h2 := congrArg (List.map Cell.id) (simulate_reset_cells e t)
  rw [List.map_map, List.map_map] at h2
  exact h2

/-- C9: `simulate` with no argument runs with the default stop time 25,
and with an explicit argument it sets the global stop time to that value
before running (the run then ends at exactly that time). -/
theorem simulate_default_tstop (e : Engine) :
    simulateNoArg e = simulate e 25 ∧
    (simulateNoArg e).tstop = 25 ∧
    (simulateNoArg e).time = 25 ∧
    (∀ t : Nat, (simulate e t).tstop = t) :=
  ⟨rfl, simulate_tstop e 25, simulate_time e 25, fun t => simulate_tstop e t⟩

/-- C10: every construction in the script stimulates at `soma(0.5)`,
records at `soma(0.5)`, and every synaptic connection places its
conductance on the target's `dend[0](0.5)` while watching the source's
`soma(0.5)` voltage. -/
theorem uniform_sites_invariant :
    (∀ (cell delay dur : Nat) (amp : Int),
        (attach_current_clamp cell delay dur amp).1 = Site.soma (1/2)) ∧
    (∀ cell : Nat, (set_recording_vectors cell).2 = Site.soma (1/2)) ∧
    scriptWirings.map NetConWiring.synSite
        = List.replicate 5 (Site.dend 0 (1/2)) ∧
    scriptWirings.map NetConWiring.srcSite
        = List.replicate 5 (Site.soma (1/2)) :=
  ⟨fun _ _ _ _ => rfl, fun _ => rfl, rfl, rfl⟩

/-! Helper lemmas for the isolated-cell (no-crosstalk) argument. -/

lemma stimCurrent_eq_zero {stims : List Stimulus} {cid : Nat}
    (h : ∀ s ∈ stims, s.target ≠ cid) (t : Nat) :
    stimCurrent stims cid t = 0 := by
  unfold stimCurrent
  have hf : stims.filter (fun s => decide (s.target = cid)) = [] := by
    rw [List.filter_eq_nil_iff]
    intro s hs
    simp [h s hs]
  rw [hf]
  rfl

lemma scheduledEvents_eq_nil {e : Engine} (h : e.net.conns = []) :
    scheduledEvents e = [] := by
  unfold scheduledEvents
  rw [h]
  simp

lemma column_append (h1 h2 : List (List Int)) (i : Nat) :
    column (h1 ++ h2) i = column h1 i ++ column h2 i := by
  unfold column
  rw [List.map_append]

lemma iterate_isolated (e : Engine) (i : Nat) (c : Cell)
    (hconns : e.net.conns = []) (hq : e.queue = [])
    (hget : e.net.cells[i]? = some c) (hv : c.v = c.rest)
    (hstim : ∀ s ∈ e.stimuli, s.target ≠ c.id)
    (hstep : c.step c.rest 0 = c.rest) (n : Nat) :
    (Nat.iterate stepEngine n e).net.cells[i]? = some c ∧
    (Nat.iterate stepEngine n e).queue = [] ∧
    column (Nat.iterate stepEngine n e).hist i
      = column e.hist i ++ List.replicate n (some c.rest) := by
  induction n with
  | zero =>
    exact ⟨hget, hq, by simp [column]⟩
  | succ n ih =>
    obtain ⟨ih1, ih2, ih3⟩ := ih
    rw [Function.iterate_succ_apply']
    set E := Nat.iterate stepEngine n e with hE
    have hstimE : ∀ s ∈ E.stimuli, s.target ≠ c.id := by
      rw [hE, iterate_stimuli]
      exact hstim
    have hinput : inputCurrent E c.id = 0 := by
      unfold inputCurrent
      rw [ih2, stimCurrent_eq_zero hstimE]
      rfl
    have hnext : nextV E c = c.rest := by
      unfold nextV
      rw [hinput, hv, hstep]
    have hcellstep : stepCell E c = c := by
      unfold stepCell
      rw [hnext]
      nth_rewrite 2 [← hv]
      rfl
    refine ⟨?_, ?_, ?_⟩
    · show (E.net.cells.map (stepCell E))[i]? = some c
      rw [List.getElem?_map, ih1]
      show some (stepCell E c) = some c
      rw [hcellstep]
    · show E.queue.filter (fun ev => E.time < ev.time) ++ scheduledEvents E = []
      rw [ih2, scheduledEvents_eq_nil (by rw [hE, iterate_conns]; exact hconns)]
      rfl
    · show column (E.hist ++ [E.net.cells.map (fun x => nextV E x)]) i
        = column e.hist i ++ List.replicate (n + 1) (some c.rest)
      rw [column_append, ih3, List.replicate_succ', ← List.append_assoc]
      congr 1
      show [(E.net.cells.map (fun x => nextV E x))[i]?] = [some c.rest]
      rw [List.getElem?_map, ih1]
      show [some (nextV E c)] = [some c.rest]
      rw [hnext]

/-- C5: in a network with no connections, a cell that no stimulus targets
and whose dynamics fix its resting state under zero input records a
voltage trace that stays at its resting value for the whole run, whatever
stimulation the other cells receive. -/
theorem no_crosstalk_without_connection (e : Engine) (t i : Nat) (c : Cell)
    (hconns : e.net.conns = [])
    (hget : e.net.cells[i]? = some c)
    (hstim : ∀ s ∈ e.stimuli, s.target ≠ c.id)
    (hstep : c.step c.rest 0 = c.rest) :
    column (simulate e t).hist i = List.replicate t (some c.rest) := by
  rw [simulate_def]
  set z := reset { e with tstop := t } with hz
  have hzget : z.net.cells[i]? = some (resetCell c) := by
    rw [hz]
    show (e.net.cells.map resetCell)[i]? = some (resetCell c)
    rw [List.getElem?_map, hget]
    rfl
  have hzconns : z.net.conns = [] := hconns
  have hzq : z.queue = [] := rfl
  have hzv : (resetCell c).v = (resetCell c).rest := rfl
  have hzstim : ∀ s ∈ z.stimuli, s.target ≠ (resetCell c).id := hstim
  have hzstep : (resetCell c).step (resetCell c).rest 0 = (resetCell c).rest :=
    hstep
  have h := iterate_isolated z i (resetCell c) hzconns hzq hzget hzv hzstim
    hzstep t
  rw [h.2.2]
  show [] ++ List.replicate t (some c.rest) = List.replicate t (some c.rest)
  rw [List.nil_append]

/-- Witness for C5 at a concrete input: in the script's disconnected
2-cell experiment with cell 0 clamped, cell 1's recorded trace is its
resting value 0 for the entire 25-tick run. -/
theorem no_crosstalk_without_connection_witness :
    column (simulate disc2 25).hist 1 = List.replicate 25 (some 0) :=
  no_crosstalk_without_connection disc2 25 1 (mkCell 1) rfl rfl (by decide) rfl

/-- C7: every scheduled delivery's amplitude is the connection's weight
scaled by the fixed unit pulse; the current delivered to the target at the
scheduled delivery time is exactly that amplitude; the amplitude is
monotone non-decreasing in the weight; and in the 2-cell ring run the
current delivered to cell 1 at the scheduled tick 15 grows from 10 to 20
when the weight grows from 1 to 2. -/
theorem delivery_amplitude_monotone_in_weight :
    (∀ (e : Engine) (ev : Event), ev ∈ scheduledEvents e →
      ∃ k, k ∈ e.net.conns ∧ ev.amp = k.weight * synUnitAmp) ∧
    (∀ (tgt t : Nat) (a : Int), deliveredCurrent [⟨tgt, t, a⟩] tgt t = a) ∧
    (∀ w1 w2 : Int, 0 ≤ w1 → w1 ≤ w2 →
      w1 * synUnitAmp ≤ w2 * synUnitAmp) ∧
    (deliveredCurrent
        (Nat.iterate stepEngine 15 (reset { ring2w 1 with tstop := 25 })).queue
        1 15 = 10 ∧
      deliveredCurrent
        (Nat.iterate stepEngine 15 (reset { ring2w 2 with tstop := 25 })).queue
        1 15 = 20) := by
  refine ⟨fun e ev h => ?_, fun tgt t a => by simp [deliveredCurrent],
    fun w1 w2 h0 h12 => ?_, by decide, by decide⟩
  · obtain ⟨k, hk, _, _, hamp⟩ := mem_scheduledEvents h
    exact ⟨k, hk, hamp⟩
  · exact mul_le_mul_of_nonneg_right h12 (by norm_num [synUnitAmp])

/-- Witness for C7 at a concrete input: a singleton delivery of amplitude
10 yields current 10 at its delivery time, and the scheduled amplitude at
weight 1 is at most the one at weight 2. -/
theorem delivery_amplitude_monotone_in_weight_witness :
    deliveredCurrent [⟨1, 15, 10⟩] 1 15 = 10 ∧
    (1 : Int) * synUnitAmp ≤ (2 : Int) * synUnitAmp :=
  ⟨delivery_amplitude_monotone_in_weight.2.1 1 15 10,
   delivery_amplitude_monotone_in_weight.2.2.1 1 2 (by decide) (by decide)⟩
